import Mathlib

/-!
Shallow embedding of the two-tier kernel allocator:
`src/kern/src/allocator/util.rs` (alignment arithmetic),
`src/kern/src/allocator/bump.rs` (bump allocator) and
`src/kern/src/allocator/bin.rs` (size-classed bin allocator).

Addresses and sizes are `usize` values of the 64-bit target, embedded as
`Nat` with explicit saturation / overflow checks at `2 ^ 64`.  A Rust
function that can panic is embedded as an `Option`-valued function whose
`none` result marks the panic; a returned `ptr::null_mut()` is embedded
as the inner `Option.none` of a returned `Option Nat`.
-/

namespace RustAlloc

/-- Number of values of the target's `usize` type (64-bit). -/
def USIZE : Nat := 2 ^ 64

/-- `usize::MAX` on the 64-bit target. -/
def USIZE_MAX : Nat := 2 ^ 64 - 1

/-- `isize::MAX` on the 64-bit target. -/
def ISIZE_MAX : Nat := 2 ^ 63 - 1

/-- `core::mem::size_of::<usize>()` on the 64-bit target. -/
def USIZE_BYTES : Nat := 8

/-- `usize::saturating_add` of the 64-bit target. -/
def saturating_add (a b : Nat) : Nat := min (a + b) USIZE_MAX

/-- `usize::saturating_sub`; on `Nat` truncated subtraction already saturates at 0. -/
def saturating_sub (a b : Nat) : Nat := a - b

/-- `usize::is_power_of_two` of the 64-bit target: `n` equals `2 ^ k` for some `k < 64`. -/
def is_power_of_two (n : Nat) : Bool :=
  (List.range 64).any (fun k => n == 2 ^ k)

/-- `core::alloc::Layout`: a `(size, align)` request pair. -/
structure Layout where
  size : Nat
  align : Nat
deriving DecidableEq

/-- `Layout::from_size_align`: `some` exactly when `align` is a power of two and
`size` rounded up to a multiple of `align` stays within `isize::MAX`. -/
def from_size_align (size align : Nat) : Option Layout :=
  if is_power_of_two align = true ∧ size ≤ ISIZE_MAX - (align - 1) then
    some ⟨size, align⟩
  else
    none

/-- `align_up` from `src/kern/src/allocator/util.rs`: aligns `addr` upwards to the
nearest multiple of `align`.  `none` embeds the two panics of the source: the
assert on a non-power-of-two `align`, and the `overflowing_add` overflow branch. -/
def align_up (addr align : Nat) : Option Nat :=
  if is_power_of_two align = false then
    none
  else
    let to_add := (align - addr % align) % align
    if addr + to_add < USIZE then some (addr + to_add) else none

/-- The bump allocator state from `src/kern/src/allocator/bump.rs`:
a cursor `current` and the region's `end` address. -/
structure BumpAllocator where
  current : Nat
  «end» : Nat
deriving DecidableEq

/-- `bump::Allocator::new(start, end)`: cursor starts at `start`; no validation. -/
def BumpAllocator.new (start «end» : Nat) : BumpAllocator :=
  ⟨start, «end»⟩

/-- `bump::Allocator::alloc`.  The outer `Option` is `none` when the call panics
(inside `align_up`); the inner `Option Nat` is the returned pointer, `none`
embedding `ptr::null_mut()`. -/
def bump_alloc (layout : Layout) (st : BumpAllocator) :
    Option (BumpAllocator × Option Nat) :=
  if layout.size = 0 ∨ is_power_of_two layout.align = false then
    some (st, none)
  else
    match align_up st.current layout.align with
    | none => none
    | some start_addr =>
      let new_cur := saturating_add start_addr layout.size
      let space_allocated := saturating_sub new_cur start_addr
      if st.«end» < new_cur ∨ space_allocated < layout.size then
        some (st, none)
      else
        some ({ st with current := new_cur }, some start_addr)

/-- `bump::Allocator::dealloc`: a deliberate no-op; the memory is leaked. -/
def bump_dealloc (_ptr : Nat) (_layout : Layout) (st : BumpAllocator) : BumpAllocator :=
  st

/-- The size-class table `SIZES` from `src/kern/src/allocator/bin.rs`:
block sizes `2^3 .. 2^16`, fourteen classes. -/
def SIZES : List Nat :=
  [2 ^ 3, 2 ^ 4, 2 ^ 5, 2 ^ 6, 2 ^ 7, 2 ^ 8, 2 ^ 9,
   2 ^ 10, 2 ^ 11, 2 ^ 12, 2 ^ 13, 2 ^ 14, 2 ^ 15, 2 ^ 16]

/-- Fuel-indexed helper for `trailing_zeros`: counts factors of two by repeated
halving, `fuel` bounding the count as the bit width does on the target. -/
def ctzAux : Nat → Nat → Nat
  | 0, _ => 0
  | fuel + 1, n => if n % 2 == 1 then 0 else ctzAux fuel (n / 2) + 1

/-- `usize::trailing_zeros` of the 64-bit target (`trailing_zeros 0 = 64`). -/
def trailing_zeros (n : Nat) : Nat := ctzAux 64 n

/-- Helper for `checked_next_power_of_two`: the least power of two that is at
least `n`, found by doubling `p` at most `fuel` times. -/
def npo2Loop : Nat → Nat → Nat → Nat
  | 0, p, _ => p
  | fuel + 1, p, n => if n ≤ p then p else npo2Loop fuel (2 * p) n

/-- `usize::checked_next_power_of_two` of the 64-bit target: the least power of
two `≥ n`, or `none` when that power does not fit in `usize` (`n > 2^63`). -/
def checked_next_power_of_two (n : Nat) : Option Nat :=
  if n ≤ 2 ^ 63 then some (npo2Loop 64 1 n) else none

/-- `map_to_bin` from `src/kern/src/allocator/bin.rs`: the bin index serving a
layout, or `none` when no bin can (forcing fallback). -/
def map_to_bin (layout : Layout) : Option Nat :=
  let size := max layout.size layout.align
  ((checked_next_power_of_two size).map
      (fun n => trailing_zeros n - 3)).bind
    (fun n => if n < SIZES.length then some n else none)

/-- Modelled from the spec: `src/kern/src/allocator/linked_list.rs` is absent
from `src/`; spec §4.2 describes the intrusive free list as a singly linked
list of free-block addresses whose `push(block_address)` is an O(1) prepend.
A list is embedded as the `List Nat` of its node addresses, head first. -/
def push (addr : Nat) (l : List Nat) : List Nat :=
  addr :: l

/-- Modelled from the spec: `src/kern/src/allocator/linked_list.rs` is absent
from `src/`; spec §4.2's `scan_remove(predicate)` walks the nodes, returns
the first node address satisfying the predicate, unlinking it in place.
Embedded as the found address together with the remaining list. -/
def scan_remove (p : Nat → Bool) : List Nat → Option (Nat × List Nat)
  | [] => none
  | x :: xs =>
    if p x then some (x, xs)
    else (scan_remove p xs).map (fun r => (r.1, x :: r.2))

/-- The bin allocator state from `src/kern/src/allocator/bin.rs`: a fallback
bump allocator plus one free list per size class. -/
structure BinAllocator where
  global_pool : BumpAllocator
  bins : List (List Nat)
deriving DecidableEq

/-- `bin::Allocator::new(start, end)`: all free lists empty, fallback over `[start, end)`. -/
def BinAllocator.new (start «end» : Nat) : BinAllocator :=
  ⟨BumpAllocator.new start «end», List.replicate SIZES.length []⟩

/-- `bin::Allocator::alloc_from_fallback`: delegate to the bump allocator,
threading its state through. -/
def alloc_from_fallback (layout : Layout) (st : BinAllocator) :
    Option (BinAllocator × Option Nat) :=
  (bump_alloc layout st.global_pool).map
    (fun r => ({ st with global_pool := r.1 }, r.2))

/-- `bin::Allocator::alloc_from_bin`: scan class `bin_num`'s free list for a
suitably aligned node and pop it; on a miss, request one block of the class's
fixed size (aligned to the request's align) from the fallback allocator.
The `none` of `from_size_align` embeds the `.unwrap()` panic of the source. -/
def alloc_from_bin (bin_num : Nat) (layout : Layout) (st : BinAllocator) :
    Option (BinAllocator × Option Nat) :=
  let align := layout.align
  match scan_remove (fun a => a % align == 0) (st.bins.getD bin_num []) with
  | some (addr, rest) =>
    some ({ st with bins := st.bins.set bin_num rest }, some addr)
  | none =>
    let size := SIZES.getD bin_num 0
    match from_size_align size align with
    | none => none
    | some layout2 => alloc_from_fallback layout2 st

/-- `bin::Allocator::alloc`: reject invalid layouts, then route through
`map_to_bin` to a bin or to the fallback allocator. -/
def bin_alloc (layout : Layout) (st : BinAllocator) :
    Option (BinAllocator × Option Nat) :=
  if layout.size = 0 ∨ is_power_of_two layout.align = false then
    some (st, none)
  else
    match map_to_bin layout with
    | some n => alloc_from_bin n layout st
    | none => alloc_from_fallback layout st

/-- `bin::Allocator::dealloc`: push the block onto its class's free list after
the defensive assert that the class's block size can hold a pointer (`none`
embeds that assert's panic); with no class, forward to the bump allocator's
no-op `dealloc`. -/
def bin_dealloc (ptr : Nat) (layout : Layout) (st : BinAllocator) :
    Option BinAllocator :=
  match map_to_bin layout with
  | some n =>
    if USIZE_BYTES ≤ SIZES.getD n 0 then
      some { st with bins := st.bins.set n (push ptr (st.bins.getD n [])) }
    else
      none
  | none =>
    some { st with global_pool := bump_dealloc ptr layout st.global_pool }

/-- Reference classification of sizes into bins, following the spec's words:
the class `k` such that `2 ^ (k + 3)` is the least class block size bounding
`n`, and "no class" when no registered class bounds `n`. -/
def refClass (n : Nat) : Option Nat :=
  (List.range SIZES.length).find? (fun k => decide (n ≤ 2 ^ (k + 3)))

/-! Basic facts about the alignment arithmetic. -/

theorem is_power_of_two_iff {n : Nat} :
    is_power_of_two n = true ↔ ∃ k, k < 64 ∧ n = 2 ^ k := by
  simp [is_power_of_two, List.any_eq_true, List.mem_range]

theorem is_power_of_two_pos {n : Nat} (h : is_power_of_two n = true) : 0 < n := by
  obtain ⟨k, -, rfl⟩ := is_power_of_two_iff.mp h
  exact Nat.pos_pow_of_pos k (by omega)

theorem align_up_pow2 {addr align a : Nat} (h : align_up addr align = some a) :
    is_power_of_two align = true := by
  by_cases hp : is_power_of_two align = true
  · exact hp
  · simp only [Bool.not_eq_true] at hp
    simp [align_up, hp] at h

theorem align_up_valid_eq {addr align : Nat} (hp : is_power_of_two align = true) :
    align_up addr align =
      if addr + (align - addr % align) % align < USIZE then
        some (addr + (align - addr % align) % align)
      else
        none := by
  rw [align_up, if_neg]
  simp [hp]

theorem align_up_eq {addr align a : Nat} (h : align_up addr align = some a) :
    a = addr + (align - addr % align) % align := by
  rw [align_up_valid_eq (align_up_pow2 h)] at h
  split at h
  · exact (Option.some.inj h).symm
  · exact absurd h (by simp)

theorem align_up_lt {addr align a : Nat} (h : align_up addr align = some a) :
    a < USIZE := by
  rw [align_up_valid_eq (align_up_pow2 h)] at h
  split at h
  · cases h; assumption
  · exact absurd h (by simp)

theorem align_up_ge {addr align a : Nat} (h : align_up addr align = some a) :
    addr ≤ a := by
  rw [align_up_eq h]; omega

theorem align_up_mod {addr align a : Nat} (h : align_up addr align = some a) :
    a % align = 0 := by
  have hpos : 0 < align := is_power_of_two_pos (align_up_pow2 h)
  have hm : addr % align < align := Nat.mod_lt _ hpos
  rw [align_up_eq h]
  by_cases hm0 : addr % align = 0
  · simp [hm0, Nat.sub_zero, Nat.mod_self, hm0]
  · have hlt : align - addr % align < align := by omega
    rw [Nat.mod_eq_of_lt hlt]
    have hd := Nat.div_add_mod addr align
    have he : addr + (align - addr % align) = align * (addr / align) + align := by
      omega
    rw [he, ← Nat.mul_succ, Nat.mul_mod_right]

theorem align_up_isSome_of_lt {addr align : Nat}
    (hp : is_power_of_two align = true)
    (hlt : addr + (align - addr % align) % align < USIZE) :
    align_up addr align = some (addr + (align - addr % align) % align) := by
  rw [align_up_valid_eq hp, if_pos hlt]

/-! Case analysis lemmas for `bump_alloc`. -/

theorem bump_alloc_invalid {l : Layout} {st : BumpAllocator}
    (h : l.size = 0 ∨ is_power_of_two l.align = false) :
    bump_alloc l st = some (st, none) := by
  rw [bump_alloc, if_pos h]

theorem bump_alloc_valid_eq {l : Layout} {st : BumpAllocator} {a : Nat}
    (hsz : l.size ≠ 0) (hal : is_power_of_two l.align = true)
    (ha : align_up st.current l.align = some a) :
    bump_alloc l st =
      if st.«end» < saturating_add a l.size ∨
          saturating_sub (saturating_add a l.size) a < l.size then
        some (st, none)
      else
        some (⟨saturating_add a l.size, st.«end»⟩, some a) := by
  rw [bump_alloc, if_neg (by simp [hsz, hal]), ha]

theorem bump_alloc_panic {l : Layout} {st : BumpAllocator}
    (hsz : l.size ≠ 0) (hal : is_power_of_two l.align = true)
    (ha : align_up st.current l.align = none) :
    bump_alloc l st = none := by
  rw [bump_alloc, if_neg (by simp [hsz, hal]), ha]

theorem bump_alloc_fail {l : Layout} {st : BumpAllocator} {a : Nat}
    (hsz : l.size ≠ 0) (hal : is_power_of_two l.align = true)
    (ha : align_up st.current l.align = some a)
    (hov : st.«end» < a + l.size ∨ USIZE ≤ a + l.size) :
    bump_alloc l st = some (st, none) := by
  rw [bump_alloc_valid_eq hsz hal ha, if_pos]
  simp only [saturating_add, saturating_sub, USIZE, USIZE_MAX] at *
  omega

theorem bump_alloc_success {l : Layout} {st : BumpAllocator} {a : Nat}
    (hsz : l.size ≠ 0) (hal : is_power_of_two l.align = true)
    (ha : align_up st.current l.align = some a)
    (hfit : a + l.size ≤ st.«end») (hend : st.«end» ≤ USIZE_MAX) :
    bump_alloc l st = some (⟨a + l.size, st.«end»⟩, some a) := by
  have hsat : saturating_add a l.size = a + l.size := by
    simp only [saturating_add, USIZE_MAX] at *
    omega
  rw [bump_alloc_valid_eq hsz hal ha, if_neg, hsat]
  rw [hsat]
  simp only [saturating_sub]
  omega

theorem bump_alloc_some_inv {l : Layout} {st st' : BumpAllocator} {p : Nat}
    (h : bump_alloc l st = some (st', some p)) :
    align_up st.current l.align = some p ∧
    st'.current = p + l.size ∧ st'.«end» = st.«end» ∧
    p + l.size ≤ st.«end» ∧ l.size ≠ 0 ∧ is_power_of_two l.align = true ∧
    st.current ≤ p ∧ p % l.align = 0 ∧ p < USIZE := by
  by_cases hsz : l.size = 0
  · rw [bump_alloc_invalid (Or.inl hsz)] at h
    simp at h
  by_cases hal : is_power_of_two l.align = true
  case neg =>
    simp only [Bool.not_eq_true] at hal
    rw [bump_alloc_invalid (Or.inr hal)] at h
    simp at h
  cases hau : align_up st.current l.align with
  | none =>
    rw [bump_alloc_panic hsz hal hau] at h
    simp at h
  | some a =>
    rw [bump_alloc_valid_eq hsz hal hau] at h
    split at h
    · simp at h
    · rename_i hguard
      simp only [Option.some.injEq, Prod.mk.injEq] at h
      obtain ⟨hst, hp⟩ := h
      push_neg at hguard
      obtain ⟨hend, hspace⟩ := hguard
      subst hp
      have hnosat : saturating_add a l.size = a + l.size := by
        simp only [saturating_add, saturating_sub, USIZE_MAX] at *
        omega
      rw [hnosat] at hst hend
      refine ⟨rfl, ?_, ?_, by omega, hsz, hal, align_up_ge hau, align_up_mod hau,
        align_up_lt hau⟩
      · rw [← hst]
      · rw [← hst]

theorem bump_alloc_none_inv {l : Layout} {st st' : BumpAllocator}
    (h : bump_alloc l st = some (st', none)) : st' = st := by
  by_cases hsz : l.size = 0
  · rw [bump_alloc_invalid (Or.inl hsz)] at h
    simp at h
    exact h.symm
  by_cases hal : is_power_of_two l.align = true
  case neg =>
    simp only [Bool.not_eq_true] at hal
    rw [bump_alloc_invalid (Or.inr hal)] at h
    simp at h
    exact h.symm
  cases hau : align_up st.current l.align with
  | none =>
    rw [bump_alloc_panic hsz hal hau] at h
    simp at h
  | some a =>
    rw [bump_alloc_valid_eq hsz hal hau] at h
    split at h
    · simp at h
      exact h.symm
    · simp at h

/-- C1: Bump allocator alloc contract.  For every layout: a request with
`size = 0` or non-power-of-two `align` returns null; otherwise, with
`a = align_up(cursor, align)` computed, the call returns null (leaving the
state unchanged) when `a + size` would exceed `end` or overflow the address
space, and otherwise advances the cursor to `a + size` and returns `a`. -/
theorem C1_bump_alloc_contract (l : Layout) (st : BumpAllocator)
    (hend : st.«end» ≤ USIZE_MAX) :
    (l.size = 0 ∨ is_power_of_two l.align = false →
      bump_alloc l st = some (st, none)) ∧
    (∀ a, l.size ≠ 0 → is_power_of_two l.align = true →
      align_up st.current l.align = some a →
      ((st.«end» < a + l.size ∨ USIZE ≤ a + l.size) →
        bump_alloc l st = some (st, none)) ∧
      (a + l.size ≤ st.«end» →
        bump_alloc l st = some (⟨a + l.size, st.«end»⟩, some a))) :=
  ⟨fun h => bump_alloc_invalid h,
   fun _a hsz hal ha =>
     ⟨fun hov => bump_alloc_fail hsz hal ha hov,
      fun hfit => bump_alloc_success hsz hal ha hfit hend⟩⟩

/-- Witness for C1: on region `[0x1000, 0x2000)` an `(8, 8)` request
succeeds, returns the cursor and advances it by 8. -/
theorem C1_bump_alloc_contract_witness :
    bump_alloc ⟨8, 8⟩ ⟨4096, 8192⟩ = some (⟨4096 + 8, 8192⟩, some 4096) :=
  ((C1_bump_alloc_contract ⟨8, 8⟩ ⟨4096, 8192⟩ (by decide)).2 4096 (by decide)
    (by decide) (by decide)).2 (by decide)

/-- C4 counterexample: a well-formed request (`size = 1 > 0`, `align = 2` a
power of two) on which the bump allocator panics (embedded `none`) instead of
failing closed with a null pointer: with the cursor at `usize::MAX`, the
`overflowing_add` inside `align_up` overflows and `align_up` panics. -/
theorem C4_counterexample :
    0 < (1 : Nat) ∧ is_power_of_two 2 = true ∧
    bump_alloc ⟨1, 2⟩ ⟨USIZE_MAX, USIZE_MAX⟩ = none := by decide

/-- C4 (amended): for every well-formed request, provided aligning the current
cursor up to `align` does not overflow the address space, the bump allocator
does not panic; and when the subsequent addition `a + size` overflows the
address space, the overflow is detected (via saturation and the
`new_cursor - a < size` sentinel) and the call fails closed, returning null
with the state unchanged. -/
theorem C4_no_panic_of_align_fits (l : Layout) (st : BumpAllocator)
    (hsz : 0 < l.size) (hal : is_power_of_two l.align = true)
    (ha : (align_up st.current l.align).isSome = true) :
    (bump_alloc l st).isSome = true ∧
    (∀ a, align_up st.current l.align = some a → USIZE ≤ a + l.size →
      bump_alloc l st = some (st, none)) := by
  have hsz' : l.size ≠ 0 := by omega
  obtain ⟨a, ha'⟩ := Option.isSome_iff_exists.mp ha
  constructor
  · rw [bump_alloc_valid_eq hsz' hal ha']
    split <;> rfl
  · intro a' ha'' hov
    exact bump_alloc_fail hsz' hal ha'' (Or.inr hov)

/-- Witness for C4 (amended): a well-formed `(8, 8)` request on region
`[0x1000, 0x2000)` does not panic. -/
theorem C4_no_panic_of_align_fits_witness :
    (bump_alloc ⟨8, 8⟩ ⟨4096, 8192⟩).isSome = true :=
  (C4_no_panic_of_align_fits ⟨8, 8⟩ ⟨4096, 8192⟩ (by decide) (by decide)
    (by decide)).1

/-- C7: the bump cursor is monotonically non-decreasing across all operations
(`alloc` in every non-panicking outcome, and the no-op `dealloc`), and the
`[p, p + size)` ranges of two sequential successful allocations are disjoint. -/
theorem C7_bump_monotone_nonoverlap :
    (∀ l st st' r, bump_alloc l st = some (st', r) →
      st.current ≤ st'.current) ∧
    (∀ p l st, (bump_dealloc p l st).current = st.current) ∧
    (∀ l1 l2 st st1 st2 p1 p2,
      bump_alloc l1 st = some (st1, some p1) →
      bump_alloc l2 st1 = some (st2, some p2) →
      ∀ x, p1 ≤ x → x < p1 + l1.size → ¬(p2 ≤ x ∧ x < p2 + l2.size)) := by
  refine ⟨?_, fun _ _ _ => rfl, ?_⟩
  · intro l st st' r h
    cases r with
    | none => rw [bump_alloc_none_inv h]
    | some p =>
      obtain ⟨-, hcur, -, -, -, -, hge, -, -⟩ := bump_alloc_some_inv h
      omega
  · intro l1 l2 st st1 st2 p1 p2 h1 h2 x hx1 hx2
    obtain ⟨-, hcur1, -, -, -, -, -, -, -⟩ := bump_alloc_some_inv h1
    obtain ⟨-, -, -, -, -, -, hge2, -, -⟩ := bump_alloc_some_inv h2
    rintro ⟨hy1, hy2⟩
    omega

/-- Witness for C7: on region `[0x1000, 0x2000)`, after `alloc(8,8) = 0x1000`
and `alloc(8,8) = 0x1008`, the address `0x1004` of the first block does not
lie in the second block. -/
theorem C7_bump_monotone_nonoverlap_witness :
    ¬((4104 : Nat) ≤ 4100 ∧ 4100 < 4104 + Layout.size ⟨8, 8⟩) :=
  C7_bump_monotone_nonoverlap.2.2 ⟨8, 8⟩ ⟨8, 8⟩ ⟨4096, 8192⟩ ⟨4104, 8192⟩
    ⟨4112, 8192⟩ 4096 4104 (by decide) (by decide) 4100 (by decide) (by decide)

/-- C8: a bump alloc that returns null leaves the allocator state exactly
unchanged, so every subsequent request behaves exactly as it would have from
the pre-failure state. -/
theorem C8_bump_alloc_failure_atomic (l : Layout) (st st' : BumpAllocator)
    (h : bump_alloc l st = some (st', none)) :
    st' = st ∧ ∀ l2, bump_alloc l2 st' = bump_alloc l2 st := by
  have hst := bump_alloc_none_inv h
  exact ⟨hst, fun l2 => by rw [hst]⟩

/-- Witness for C8: exhausting the region `[0x2000, 0x2000)` with an `(8, 8)`
request returns null and leaves the state unchanged. -/
theorem C8_bump_alloc_failure_atomic_witness :
    (⟨8192, 8192⟩ : BumpAllocator) = ⟨8192, 8192⟩ ∧
    bump_alloc ⟨16, 8⟩ (⟨8192, 8192⟩ : BumpAllocator) =
      bump_alloc ⟨16, 8⟩ ⟨8192, 8192⟩ :=
  ⟨(C8_bump_alloc_failure_atomic ⟨8, 8⟩ ⟨8192, 8192⟩ ⟨8192, 8192⟩ (by decide)).1,
   (C8_bump_alloc_failure_atomic ⟨8, 8⟩ ⟨8192, 8192⟩ ⟨8192, 8192⟩ (by decide)).2
     ⟨16, 8⟩⟩

/-- C10 counterexample: `new(start, end)` with `start > end` (here
`start = usize::MAX`, `end = 0`) does not handle every layout totally: the
well-formed request `(1, 2)` makes `align_up` overflow and panic (embedded
`none`) instead of returning null. -/
theorem C10_counterexample :
    (0 : Nat) < USIZE_MAX ∧ bump_alloc ⟨1, 2⟩ ⟨USIZE_MAX, 0⟩ = none := by
  decide

/-- C10 (amended): for a bump allocator whose cursor exceeds `end` (as after
`new(start, end)` with `start > end`), every alloc call that does not hit the
`align_up` overflow panic — that is, whose layout is rejected up front or
whose aligned cursor fits in the address space — returns null without
changing the state, and never yields an address. -/
theorem C10_start_gt_end_alloc_null (l : Layout) (st : BumpAllocator)
    (hlt : st.«end» < st.current)
    (hnp : l.size = 0 ∨ is_power_of_two l.align = false ∨
      (align_up st.current l.align).isSome = true) :
    bump_alloc l st = some (st, none) := by
  rcases hnp with h | h | h
  · exact bump_alloc_invalid (Or.inl h)
  · exact bump_alloc_invalid (Or.inr h)
  · by_cases hsz : l.size = 0
    · exact bump_alloc_invalid (Or.inl hsz)
    · obtain ⟨a, ha⟩ := Option.isSome_iff_exists.mp h
      have hal := align_up_pow2 ha
      have hge := align_up_ge ha
      exact bump_alloc_fail hsz hal ha (Or.inl (by omega))

/-- Witness for C10 (amended): `new(0x2000, 0x1000)` has `start > end`, and an
`(8, 8)` request returns null with the state unchanged. -/
theorem C10_start_gt_end_alloc_null_witness :
    bump_alloc ⟨8, 8⟩ ⟨8192, 4096⟩ = some (⟨8192, 4096⟩, none) :=
  C10_start_gt_end_alloc_null ⟨8, 8⟩ ⟨8192, 4096⟩ (by decide)
    (Or.inr (Or.inr (by decide)))

/-! Characterization of the size-class computation `map_to_bin`. -/

theorem ctzAux_pow : ∀ (fuel e : Nat), e < fuel → ctzAux fuel (2 ^ e) = e := by
  intro fuel
  induction fuel with
  | zero => intro e h; omega
  | succ fuel ih =>
    intro e h
    cases e with
    | zero => simp [ctzAux]
    | succ e =>
      have hmod : 2 ^ (e + 1) % 2 = 0 := by
        rw [Nat.pow_succ, Nat.mul_mod_left]
      have hdiv : 2 ^ (e + 1) / 2 = 2 ^ e := by
        rw [Nat.pow_succ, Nat.mul_div_cancel _ (by omega)]
      simp only [ctzAux, hmod]
      rw [if_neg (by decide), hdiv, ih e (by omega)]

theorem trailing_zeros_pow {e : Nat} (h : e < 64) : trailing_zeros (2 ^ e) = e :=
  ctzAux_pow 64 e h

theorem npo2Loop_eq (fuel : Nat) : ∀ (a n : Nat), 1 ≤ n → n ≤ 2 ^ (a + fuel) →
    npo2Loop fuel (2 ^ a) n = 2 ^ max a (Nat.clog 2 n) := by
  induction fuel with
  | zero =>
    intro a n h1 h2
    rw [Nat.add_zero] at h2
    have hc : Nat.clog 2 n ≤ a := (Nat.le_pow_iff_clog_le (by omega)).mp h2
    simp only [npo2Loop]
    rw [Nat.max_eq_left hc]
  | succ fuel ih =>
    intro a n h1 h2
    simp only [npo2Loop]
    by_cases hle : n ≤ 2 ^ a
    · have hc : Nat.clog 2 n ≤ a := (Nat.le_pow_iff_clog_le (by omega)).mp hle
      rw [if_pos hle, Nat.max_eq_left hc]
    · have hc : a + 1 ≤ Nat.clog 2 n := by
        by_contra hcon
        exact hle ((Nat.le_pow_iff_clog_le (by omega)).mpr (by omega))
      have h2a : (2 : Nat) * 2 ^ a = 2 ^ (a + 1) := by
        rw [Nat.pow_succ, Nat.mul_comm]
      rw [if_neg hle, h2a,
        ih (a + 1) n h1 (by rw [Nat.add_right_comm]; exact h2),
        Nat.max_eq_right hc, Nat.max_eq_right (by omega)]

theorem checked_next_power_of_two_some {n : Nat} (h1 : 1 ≤ n) (h2 : n ≤ 2 ^ 63) :
    checked_next_power_of_two n = some (2 ^ Nat.clog 2 n) := by
  rw [checked_next_power_of_two, if_pos h2]
  have h0 : (1 : Nat) = 2 ^ 0 := rfl
  rw [h0, npo2Loop_eq 64 0 n h1 (le_trans h2 (by norm_num)),
    Nat.max_eq_right (Nat.zero_le _)]

theorem checked_next_power_of_two_none {n : Nat} (h : 2 ^ 63 < n) :
    checked_next_power_of_two n = none := by
  rw [checked_next_power_of_two, if_neg (by omega)]

theorem find?_range'_eq_some {p : Nat → Bool} {j : Nat} :
    ∀ (n s : Nat), s ≤ j → j < s + n → p j = true →
    (∀ i, i < j → p i = false) →
    (List.range' s n).find? p = some j := by
  intro n
  induction n with
  | zero => intro s h1 h2 _ _; omega
  | succ n ih =>
    intro s h1 h2 hp hmin
    rw [List.range'_succ]
    by_cases hs : s = j
    · subst hs
      exact List.find?_cons_of_pos _ hp
    · have hps : ¬(p s = true) := by
        rw [hmin s (by omega)]
        simp
      rw [List.find?_cons_of_neg _ hps]
      exact ih (s + 1) (by omega) (by omega) hp hmin

theorem refClass_eq_some {n k : Nat} (hk : k < 14) (hle : n ≤ 2 ^ (k + 3))
    (hmin : ∀ i, i < k → ¬(n ≤ 2 ^ (i + 3))) : refClass n = some k := by
  rw [refClass, List.range_eq_range']
  refine find?_range'_eq_some _ 0 (Nat.zero_le _) ?_ ?_ ?_
  · simpa [SIZES] using hk
  · simpa using hle
  · intro i hi
    simpa using hmin i hi

theorem refClass_eq_none {n : Nat} (h : 2 ^ 16 < n) : refClass n = none := by
  rw [refClass, List.find?_eq_none]
  intro k hkmem
  have hk : k < 14 := by simpa [SIZES] using List.mem_range.mp hkmem
  simp only [decide_eq_true_eq]
  have hbound : 2 ^ (k + 3) ≤ 2 ^ 16 :=
    Nat.pow_le_pow_right (by omega) (by omega)
  omega

theorem map_to_bin_eq_refClass (l : Layout) (hal : 0 < l.align) :
    map_to_bin l = refClass (max l.size l.align) := by
  have hn1 : 1 ≤ max l.size l.align := le_trans hal (le_max_right _ _)
  simp only [map_to_bin]
  by_cases h16 : max l.size l.align ≤ 2 ^ 16
  · have h63 : max l.size l.align ≤ 2 ^ 63 := le_trans h16 (by norm_num)
    have he16 : Nat.clog 2 (max l.size l.align) ≤ 16 :=
      (Nat.le_pow_iff_clog_le (by omega)).mp h16
    have hnp : max l.size l.align ≤ 2 ^ Nat.clog 2 (max l.size l.align) :=
      Nat.le_pow_clog (by omega) _
    rw [checked_next_power_of_two_some hn1 h63, Option.map_some',
      trailing_zeros_pow (by omega), Option.some_bind,
      if_pos (by simp [SIZES]; omega)]
    refine (refClass_eq_some (by omega) ?_ ?_).symm
    · by_cases he3 : 3 ≤ Nat.clog 2 (max l.size l.align)
      · rw [Nat.sub_add_cancel he3]
        exact hnp
      · have h0 : Nat.clog 2 (max l.size l.align) - 3 = 0 := by omega
        have hsm : (2 : Nat) ^ Nat.clog 2 (max l.size l.align) ≤ 2 ^ 3 :=
          Nat.pow_le_pow_right (by omega) (by omega)
        rw [h0]
        omega
    · intro i hi
      intro hcon
      have : Nat.clog 2 (max l.size l.align) ≤ i + 3 :=
        (Nat.le_pow_iff_clog_le (by omega)).mp hcon
      omega
  · rw [(refClass_eq_none (by omega)).symm.symm]
    by_cases h63 : max l.size l.align ≤ 2 ^ 63
    · have he63 : Nat.clog 2 (max l.size l.align) ≤ 63 :=
        (Nat.le_pow_iff_clog_le (by omega)).mp h63
      have he17 : 17 ≤ Nat.clog 2 (max l.size l.align) := by
        by_contra hcon
        exact h16 ((Nat.le_pow_iff_clog_le (by omega)).mpr (by omega))
      rw [checked_next_power_of_two_some hn1 h63, Option.map_some',
        trailing_zeros_pow (by omega), Option.some_bind,
        if_neg (by simp [SIZES]; omega)]
    · rw [checked_next_power_of_two_none (by omega), Option.map_none',
        Option.none_bind]

/-! Facts about the size-class table and the bin operations. -/

theorem SIZES_getD {k : Nat} (hk : k < 14) : SIZES.getD k 0 = 2 ^ (k + 3) := by
  revert hk
  revert k
  decide

theorem map_to_bin_some_lt {l : Layout} {k : Nat} (h : map_to_bin l = some k) :
    k < SIZES.length := by
  simp only [map_to_bin] at h
  cases hc : checked_next_power_of_two (max l.size l.align) with
  | none => rw [hc] at h; simp at h
  | some m =>
    rw [hc] at h
    simp only [Option.map_some', Option.some_bind] at h
    split at h
    · cases h; assumption
    · simp at h

theorem refClass_some_inv {n k : Nat} (h : refClass n = some k) :
    k < 14 ∧ n ≤ 2 ^ (k + 3) := by
  have hm := List.mem_of_find?_eq_some h
  have hp := List.find?_some h
  constructor
  · simpa [SIZES] using List.mem_range.mp hm
  · simpa using hp

theorem map_some_bound {l : Layout} {k : Nat} (hal : 0 < l.align)
    (h : map_to_bin l = some k) :
    k < 14 ∧ max l.size l.align ≤ 2 ^ (k + 3) := by
  rw [map_to_bin_eq_refClass l hal] at h
  exact refClass_some_inv h

theorem getD_set_self {α : Type} {l : List α} {i : Nat} {v d : α}
    (h : i < l.length) : (l.set i v).getD i d = v := by
  induction l generalizing i with
  | nil => simp at h
  | cons x xs ih =>
    cases i with
    | zero => rfl
    | succ i => simpa using ih (by simpa using h)

theorem scan_remove_cons_pos {p : Nat → Bool} {x : Nat} {xs : List Nat}
    (h : p x = true) : scan_remove p (x :: xs) = some (x, xs) := by
  simp [scan_remove, h]

theorem scan_remove_some_pred {p : Nat → Bool} :
    ∀ {l : List Nat} {a : Nat} {rest : List Nat},
    scan_remove p l = some (a, rest) → p a = true := by
  intro l
  induction l with
  | nil => intro a rest h; simp [scan_remove] at h
  | cons x xs ih =>
    intro a rest h
    simp only [scan_remove] at h
    split at h
    · rename_i hx
      cases h
      exact hx
    · cases hs : scan_remove p xs with
      | none => rw [hs] at h; simp at h
      | some r =>
        rw [hs] at h
        simp only [Option.map_some', Option.some.injEq, Prod.mk.injEq] at h
        obtain ⟨h1, -⟩ := h
        rw [← h1]
        exact ih hs

theorem from_size_align_some {size align : Nat} {l : Layout}
    (h : from_size_align size align = some l) : l = ⟨size, align⟩ := by
  rw [from_size_align] at h
  split at h
  · exact (Option.some.inj h).symm
  · simp at h

theorem from_size_align_class {k align : Nat} (hk : k < 14)
    (hal : is_power_of_two align = true) (hle : align ≤ 2 ^ 16) :
    from_size_align (SIZES.getD k 0) align = some ⟨SIZES.getD k 0, align⟩ := by
  rw [from_size_align, if_pos]
  refine ⟨hal, ?_⟩
  have hsz : SIZES.getD k 0 ≤ 2 ^ 16 := by
    rw [SIZES_getD hk]
    exact Nat.pow_le_pow_right (by omega) (by omega)
  simp only [ISIZE_MAX]
  omega

theorem alloc_from_fallback_some {l : Layout} {st st' : BinAllocator}
    {r : Option Nat} (h : alloc_from_fallback l st = some (st', r)) :
    bump_alloc l st.global_pool = some (st'.global_pool, r) ∧
    st'.bins = st.bins := by
  rw [alloc_from_fallback] at h
  cases hb : bump_alloc l st.global_pool with
  | none => rw [hb] at h; simp at h
  | some pr =>
    rw [hb] at h
    simp only [Option.map_some', Option.some.injEq] at h
    have h1 : st' = { st with global_pool := pr.1 } := (congrArg Prod.fst h).symm
    have h2 : r = pr.2 := (congrArg Prod.snd h).symm
    subst h1
    subst h2
    exact ⟨rfl, rfl⟩

theorem bin_alloc_bin_eq {l : Layout} {st : BinAllocator} {k : Nat}
    (hsz : l.size ≠ 0) (hal : is_power_of_two l.align = true)
    (hk : map_to_bin l = some k) :
    bin_alloc l st = alloc_from_bin k l st := by
  rw [bin_alloc, if_neg (by push_neg; exact ⟨hsz, by simp [hal]⟩), hk]

theorem bin_alloc_fallback_eq {l : Layout} {st : BinAllocator}
    (hsz : l.size ≠ 0) (hal : is_power_of_two l.align = true)
    (hk : map_to_bin l = none) :
    bin_alloc l st = alloc_from_fallback l st := by
  rw [bin_alloc, if_neg (by push_neg; exact ⟨hsz, by simp [hal]⟩), hk]

theorem alloc_from_bin_hit {l : Layout} {st : BinAllocator} {k a : Nat}
    {rest : List Nat}
    (hhit : scan_remove (fun x => x % l.align == 0) (st.bins.getD k []) =
      some (a, rest)) :
    alloc_from_bin k l st =
      some ({ st with bins := st.bins.set k rest }, some a) := by
  simp only [alloc_from_bin]
  rw [hhit]

theorem alloc_from_bin_miss {l : Layout} {st : BinAllocator} {k : Nat}
    (hmiss : scan_remove (fun x => x % l.align == 0) (st.bins.getD k []) = none)
    (hval : from_size_align (SIZES.getD k 0) l.align =
      some ⟨SIZES.getD k 0, l.align⟩) :
    alloc_from_bin k l st = alloc_from_fallback ⟨SIZES.getD k 0, l.align⟩ st := by
  simp only [alloc_from_bin]
  rw [hmiss, hval]

theorem bin_alloc_some_aligned {l : Layout} {st st' : BinAllocator} {p : Nat}
    (h : bin_alloc l st = some (st', some p)) : p % l.align = 0 := by
  by_cases hsz : l.size = 0
  · rw [bin_alloc, if_pos (Or.inl hsz)] at h
    simp at h
  by_cases hal : is_power_of_two l.align = true
  case neg =>
    simp only [Bool.not_eq_true] at hal
    rw [bin_alloc, if_pos (Or.inr hal)] at h
    simp at h
  cases hmap : map_to_bin l with
  | none =>
    rw [bin_alloc_fallback_eq hsz hal hmap] at h
    obtain ⟨hb, -⟩ := alloc_from_fallback_some h
    obtain ⟨-, -, -, -, -, -, -, hmod, -⟩ := bump_alloc_some_inv hb
    exact hmod
  | some k =>
    rw [bin_alloc_bin_eq hsz hal hmap] at h
    cases hscan : scan_remove (fun x => x % l.align == 0) (st.bins.getD k [])
      with
    | some r =>
      obtain ⟨a, rest⟩ := r
      rw [alloc_from_bin_hit hscan] at h
      have hpa : a = p := by
        simpa using congrArg (fun o => o.map Prod.snd) h
      have := scan_remove_some_pred hscan
      rw [hpa] at this
      simpa using this
    | none =>
      simp only [alloc_from_bin] at h
      rw [hscan] at h
      cases hfsa : from_size_align (SIZES.getD k 0) l.align with
      | none => rw [hfsa] at h; simp at h
      | some l2 =>
        rw [hfsa] at h
        have hl2 := from_size_align_some hfsa
        obtain ⟨hb, -⟩ := alloc_from_fallback_some h
        obtain ⟨-, -, -, -, -, -, -, hmod, -⟩ := bump_alloc_some_inv hb
        rw [hl2] at hmod
        exact hmod

theorem bin_alloc_bins_length {l : Layout} {st st' : BinAllocator}
    {r : Option Nat} (h : bin_alloc l st = some (st', r)) :
    st'.bins.length = st.bins.length := by
  rw [bin_alloc] at h
  split at h
  · cases h; rfl
  cases hmap : map_to_bin l with
  | none =>
    rw [hmap] at h
    obtain ⟨-, hbins⟩ := alloc_from_fallback_some h
    rw [hbins]
  | some k =>
    rw [hmap] at h
    simp only [alloc_from_bin] at h
    cases hscan : scan_remove (fun x => x % l.align == 0) (st.bins.getD k [])
      with
    | some pr =>
      obtain ⟨a, rest⟩ := pr
      rw [hscan] at h
      simp only [Option.some.injEq, Prod.mk.injEq] at h
      obtain ⟨h1, -⟩ := h
      rw [← h1]
      simp
    | none =>
      rw [hscan] at h
      cases hfsa : from_size_align (SIZES.getD k 0) l.align with
      | none => rw [hfsa] at h; simp at h
      | some l2 =>
        rw [hfsa] at h
        obtain ⟨-, hbins⟩ := alloc_from_fallback_some h
        rw [hbins]

theorem bin_dealloc_some {p : Nat} {l : Layout} {st : BinAllocator} {k : Nat}
    (hk : map_to_bin l = some k) :
    bin_dealloc p l st =
      some { st with bins := st.bins.set k (push p (st.bins.getD k [])) } := by
  have hklt : k < 14 := by simpa [SIZES] using map_to_bin_some_lt hk
  have h8 : USIZE_BYTES ≤ SIZES.getD k 0 := by
    rw [USIZE_BYTES, SIZES_getD hklt]
    calc (8 : Nat) = 2 ^ 3 := rfl
    _ ≤ 2 ^ (k + 3) := Nat.pow_le_pow_right (by omega) (by omega)
  simp only [bin_dealloc, hk, if_pos h8]

/-- C2: `map_to_bin` equals the reference classification.  For every layout,
with `n = max(size, align)`, it returns the class `k` whose block size
`2 ^ (k + 3)` is the least class size bounding `n`, and "no class" when no
registered class bounds `n` (which covers both the power-of-two overflow of
the address width and a class index at or past the number of classes);
in particular `map_to_bin (8,1) = 0`, `map_to_bin (9,1) = 1`,
`map_to_bin (65536,1) = 13` and `map_to_bin (65537,1)` has no class. -/
theorem C2_map_to_bin_classification :
    (∀ l : Layout, 0 < l.align →
      map_to_bin l = refClass (max l.size l.align)) ∧
    map_to_bin ⟨8, 1⟩ = some 0 ∧ map_to_bin ⟨9, 1⟩ = some 1 ∧
    map_to_bin ⟨65536, 1⟩ = some 13 ∧ map_to_bin ⟨65537, 1⟩ = none :=
  ⟨map_to_bin_eq_refClass, by decide, by decide, by decide, by decide⟩

/-- Witness for C2: evaluating the classification at the layout `(9, 1)`. -/
theorem C2_map_to_bin_classification_witness :
    map_to_bin ⟨9, 1⟩ = refClass (max 9 1) :=
  C2_map_to_bin_classification.1 ⟨9, 1⟩ (by decide)

/-- C3 counterexample: a block granted by a class-0 allocation need not be
aligned to the class's block size `2 ^ (0 + 3) = 8`.  On region
`[0x1001, 0x2000)`, the request `(8, 1)` maps to class 0, misses the empty
free list, and the bump fallback grants address `0x1001`, which is not a
multiple of 8. -/
theorem C3_counterexample :
    map_to_bin ⟨8, 1⟩ = some 0 ∧
    bin_alloc ⟨8, 1⟩ (BinAllocator.new 4097 8192) =
      some (⟨⟨4105, 8192⟩, List.replicate 14 []⟩, some 4097) ∧
    ¬(4097 % 2 ^ (0 + 3) = 0) := by decide

/-- C3 (amended): every block granted by a class-`k` bin allocation is aligned
to the request's `align` — not necessarily to the class's block size
`2 ^ (k + 3)`; a bin-allocator miss obtains from the bump allocator a block
that is size-class-sized but only request-aligned, which is why the free-list
scan at allocation time filters by alignment explicitly. -/
theorem C3_blocks_request_aligned (l : Layout) (st st' : BinAllocator)
    (k p : Nat) (_hk : map_to_bin l = some k)
    (halloc : bin_alloc l st = some (st', some p)) :
    p % l.align = 0 :=
  bin_alloc_some_aligned halloc

/-- Witness for C3 (amended): the class-0 allocation `(8, 8)` on region
`[0x1000, 0x2000)` grants `0x1000`, a multiple of the requested align 8. -/
theorem C3_blocks_request_aligned_witness : (4096 : Nat) % 8 = 0 :=
  C3_blocks_request_aligned ⟨8, 8⟩ (BinAllocator.new 4096 8192)
    ⟨⟨4104, 8192⟩, List.replicate 14 []⟩ 0 4096 (by decide) (by decide)

/-- C5: LIFO reuse round-trip.  For every valid layout mapping to a class, a
successful bin alloc, followed by a dealloc of the returned pointer with the
identical layout, followed by another alloc of the identical layout, returns
the same address (the bin being untouched in between); and the concrete
scenario on region `[0x1000, 0x2000)`: `alloc(8,8) = 0x1000`,
`alloc(8,8) = 0x1008`, then after `dealloc(0x1000, 8, 8)` the next
`alloc(8,8) = 0x1000` again. -/
theorem C5_lifo_reuse :
    (∀ (l : Layout) (st st' : BinAllocator) (p k : Nat),
      l.size ≠ 0 → is_power_of_two l.align = true →
      map_to_bin l = some k → st.bins.length = SIZES.length →
      bin_alloc l st = some (st', some p) →
      ∃ st2 st3, bin_dealloc p l st' = some st2 ∧
        bin_alloc l st2 = some (st3, some p)) ∧
    (bin_alloc ⟨8, 8⟩ (BinAllocator.new 4096 8192) =
        some (⟨⟨4104, 8192⟩, List.replicate 14 []⟩, some 4096) ∧
      bin_alloc ⟨8, 8⟩ ⟨⟨4104, 8192⟩, List.replicate 14 []⟩ =
        some (⟨⟨4112, 8192⟩, List.replicate 14 []⟩, some 4104) ∧
      bin_dealloc 4096 ⟨8, 8⟩ ⟨⟨4112, 8192⟩, List.replicate 14 []⟩ =
        some ⟨⟨4112, 8192⟩, (List.replicate 14 []).set 0 [4096]⟩ ∧
      bin_alloc ⟨8, 8⟩ ⟨⟨4112, 8192⟩, (List.replicate 14 []).set 0 [4096]⟩ =
        some (⟨⟨4112, 8192⟩, (List.replicate 14 []).set 0 []⟩, some 4096)) := by
  constructor
  · intro l st st' p k hsz hal hk hlen halloc
    have hlen' : st'.bins.length = SIZES.length := by
      rw [bin_alloc_bins_length halloc, hlen]
    have hklt : k < st'.bins.length := by
      rw [hlen']
      exact map_to_bin_some_lt hk
    have hmod : p % l.align = 0 := bin_alloc_some_aligned halloc
    have hhit : scan_remove (fun x => x % l.align == 0)
        (({ st' with bins := st'.bins.set k (push p (st'.bins.getD k [])) } :
          BinAllocator).bins.getD k []) = some (p, st'.bins.getD k []) := by
      show scan_remove _
        ((st'.bins.set k (push p (st'.bins.getD k []))).getD k []) = _
      rw [getD_set_self hklt]
      simp only [push]
      exact scan_remove_cons_pos (by simpa using hmod)
    refine ⟨{ st' with bins := st'.bins.set k (push p (st'.bins.getD k [])) },
      { st' with bins := ((st'.bins.set k (push p (st'.bins.getD k []))).set k (st'.bins.getD k [])) },
      bin_dealloc_some hk, ?_⟩
    rw [bin_alloc_bin_eq hsz hal hk, alloc_from_bin_hit hhit]
  · exact ⟨by decide, by decide, by decide, by decide⟩

/-- Witness for C5: applying the round-trip at the concrete first allocation
of the scenario (layout `(8, 8)` from the fresh region `[0x1000, 0x2000)`). -/
theorem C5_lifo_reuse_witness :
    ∃ st2 st3, bin_dealloc 4096 ⟨8, 8⟩ ⟨⟨4104, 8192⟩, List.replicate 14 []⟩ =
        some st2 ∧
      bin_alloc ⟨8, 8⟩ st2 = some (st3, some 4096) :=
  C5_lifo_reuse.1 ⟨8, 8⟩ (BinAllocator.new 4096 8192)
    ⟨⟨4104, 8192⟩, List.replicate 14 []⟩ 4096 0 (by decide) (by decide)
    (by decide) (by decide) (by decide)

/-- C6: when a request maps to class `k` and the class's free list has no
suitably aligned node, the bin allocator forwards to the bump allocator
exactly one request for a block of the class's fixed size `SIZES[k]` (never
the original request size) aligned to the request's `align`, returning its
result; and the class-size layout maps back to class `k`, so a dealloc of the
granted block with a class-`k` layout lands back in class `k`'s list. -/
theorem C6_miss_requests_class_size (l : Layout) (st : BinAllocator) (k : Nat)
    (hsz : l.size ≠ 0) (hal : is_power_of_two l.align = true)
    (hk : map_to_bin l = some k)
    (hmiss : scan_remove (fun x => x % l.align == 0) (st.bins.getD k []) =
      none) :
    bin_alloc l st = alloc_from_fallback ⟨SIZES.getD k 0, l.align⟩ st ∧
    map_to_bin ⟨SIZES.getD k 0, l.align⟩ = some k := by
  have halpos : 0 < l.align := is_power_of_two_pos hal
  obtain ⟨hk14, hbound⟩ := map_some_bound halpos hk
  have halle : l.align ≤ 2 ^ (k + 3) :=
    le_trans (le_max_right _ _) hbound
  have hal16 : l.align ≤ 2 ^ 16 :=
    le_trans halle (Nat.pow_le_pow_right (by omega) (by omega))
  constructor
  · rw [bin_alloc_bin_eq hsz hal hk,
      alloc_from_bin_miss hmiss (from_size_align_class hk14 hal hal16)]
  · rw [map_to_bin_eq_refClass ⟨SIZES.getD k 0, l.align⟩ halpos]
    show refClass (max (SIZES.getD k 0) l.align) = some k
    rw [SIZES_getD hk14, Nat.max_eq_left halle]
    refine refClass_eq_some hk14 le_rfl ?_
    intro i hi hcon
    have hlt : (2 : Nat) ^ (i + 3) < 2 ^ (k + 3) :=
      Nat.pow_lt_pow_right (by omega) (by omega)
    omega

/-- Witness for C6: the `(8, 8)` request on the fresh region
`[0x1000, 0x2000)` maps to class 0, misses the empty list, and is served by a
fallback request for the canonical 8-byte class block. -/
theorem C6_miss_requests_class_size_witness :
    bin_alloc ⟨8, 8⟩ (BinAllocator.new 4096 8192) =
      alloc_from_fallback ⟨SIZES.getD 0 0, 8⟩ (BinAllocator.new 4096 8192) ∧
    map_to_bin ⟨SIZES.getD 0 0, 8⟩ = some 0 :=
  C6_miss_requests_class_size ⟨8, 8⟩ (BinAllocator.new 4096 8192) 0
    (by decide) (by decide) (by decide) (by decide)

/-- C9: every registered size class is at least as large as a machine pointer
(`SIZES[k] ≥ size_of::<usize>() = 8` for all fourteen classes), so the
defensive assertion guarding the intrusive push in bin `dealloc` never fires
for a dealloc whose layout maps to a class. -/
theorem C9_class_sizes_hold_pointer :
    (∀ k, k < SIZES.length → USIZE_BYTES ≤ SIZES.getD k 0) ∧
    (∀ (p : Nat) (l : Layout) (st : BinAllocator) (k : Nat),
      map_to_bin l = some k → (bin_dealloc p l st).isSome = true) := by
  constructor
  · decide
  · intro p l st k hk
    rw [bin_dealloc_some hk]
    rfl

/-- Witness for C9: deallocating the scenario's first block never trips the
assert — the dealloc executes to a state, not a panic. -/
theorem C9_class_sizes_hold_pointer_witness :
    (bin_dealloc 4096 ⟨8, 8⟩ (BinAllocator.new 4096 8192)).isSome = true :=
  C9_class_sizes_hold_pointer.2 4096 ⟨8, 8⟩ (BinAllocator.new 4096 8192) 0
    (by decide)

end RustAlloc
